import Mathlib

/-!
Verification of the FairResourceLock (ProcessHacker.Common.Threading,
src/unnamed/part_000) and of MmCopyVirtualMemory (src/KProcessHacker/mm.c).

The lock's packed state word `_value` is modelled as a natural number below
2 ^ 32; the C# bit operations `&`, `>>` on a non-negative `int` coincide with
`&&&` and `>>>` on `Nat`.  An `Interlocked.CompareExchange (ref x, n, v)` is
modelled by passing both the value `v` the caller read earlier and the value
`cur` that `x` holds at the instant of the exchange: the exchange succeeds and
installs `n` exactly when `cur = v`, and leaves `cur` untouched otherwise.
-/

namespace FairResourceLock

/-! Constants, copied from the source (part_000, lines 43-54). -/

def LockOwned : Nat := 0x1

def LockWaiters : Nat := 0x2

def LockSharedOwnersShift : Nat := 2

def LockSharedOwnersMask : Nat := 0x3fffffff

def LockSharedOwnersIncrement : Nat := 0x4

def WaiterExclusive : Nat := 0x1

def WaiterSpinning : Nat := 0x2

/-- Shared owner count field of the state word: `(_value >> LockSharedOwnersShift) &
LockSharedOwnersMask` (part_000, line 214). -/
def sharedOwners (value : Nat) : Nat :=
  (value >>> LockSharedOwnersShift) &&& LockSharedOwnersMask

/-- Owned bit of the state word: `(_value & LockOwned) != 0` (part_000, line 206). -/
def ownedBit (value : Nat) : Bool :=
  value &&& LockOwned != 0

/-- Waiters bit of the state word: `(_value & LockWaiters) != 0`. -/
def waitersBit (value : Nat) : Bool :=
  value &&& LockWaiters != 0

/-! Arithmetic views of the three fields, used to reason about transitions. -/

theorem ownedBit_eq_mod (value : Nat) : ownedBit value = decide (value % 2 = 1) := by
  unfold ownedBit LockOwned
  rw [Nat.and_one_is_mod]
  rcases Nat.mod_two_eq_zero_or_one value with h | h <;> simp [h]

theorem land_two_eq (value : Nat) : value &&& 2 = 2 * (value / 2 % 2) := by
  have h1 := Nat.and_two_pow value 1
  rw [Nat.testBit_to_div_mod] at h1
  simp only [pow_one] at h1
  rw [h1]
  rcases Nat.mod_two_eq_zero_or_one (value / 2) with h | h <;> rw [h] <;> simp

theorem waitersBit_eq_mod (value : Nat) : waitersBit value = decide (value / 2 % 2 = 1) := by
  unfold waitersBit LockWaiters
  show (value &&& 2 != 0) = decide (value / 2 % 2 = 1)
  rw [land_two_eq]
  rcases Nat.mod_two_eq_zero_or_one (value / 2) with h | h <;> simp [h]

theorem sharedOwners_eq_div (value : Nat) (h : value < 2 ^ 32) :
    sharedOwners value = value / 4 := by
  unfold sharedOwners LockSharedOwnersShift LockSharedOwnersMask
  rw [Nat.shiftRight_eq_div_pow]
  have h2 : (0x3fffffff : Nat) = 2 ^ 30 - 1 := by norm_num
  rw [h2, Nat.and_pow_two_sub_one_eq_mod]
  exact Nat.mod_eq_of_lt (by omega)

/-! TryAcquireExclusive (part_000, lines 746-760).  `value` is the snapshot the
function read from `_value`, `cur` is the content of `_value` at the moment of
its single CompareExchange.  The result is the pair (return value, content of
`_value` immediately after the call). -/

def TryAcquireExclusive (value cur : Nat) : Bool × Nat :=
  if value &&& LockOwned != 0 then
    (false, cur)
  else
    if cur = value then (true, value + LockOwned) else (false, cur)

/-- Count of CompareExchange calls TryAcquireExclusive issues for snapshot `value`. -/
def TryAcquireExclusiveCasCount (value : Nat) : Nat :=
  if value &&& LockOwned != 0 then 0 else 1

/-- Fast-path admission test of AcquireShared and TryAcquireShared (part_000,
lines 351-354 and 772-775): the lock is free, or it is held, nobody waits and
there is at least one shared owner. -/
def sharedAcquireCond (value : Nat) : Bool :=
  (value &&& LockOwned == 0) ||
    ((value &&& LockWaiters == 0) && (sharedOwners value != 0))

/-! TryAcquireShared (part_000, lines 766-798), same CompareExchange model. -/

def TryAcquireShared (value cur : Nat) : Bool × Nat :=
  if sharedAcquireCond value then
    if value &&& LockOwned == 0 then
      if cur = value then
        (true, value + LockOwned + LockSharedOwnersIncrement)
      else (false, cur)
    else
      if cur = value then
        (true, value + LockSharedOwnersIncrement)
      else (false, cur)
  else (false, cur)

/-- Count of CompareExchange calls TryAcquireShared issues for snapshot `value`. -/
def TryAcquireSharedCasCount (value : Nat) : Nat :=
  if sharedAcquireCond value then 1 else 0

/-! One iteration of the AcquireExclusive / AcquireShared retry loop
(part_000, lines 250-312 and 338-422).  The iteration reads `value` from
`_value`; `casOk` tells whether the single CompareExchange it performs (the
acquisition CAS on the fast path, the waiters-bit CAS on the slow path)
succeeds.  The result records which branch ran together with the value of the
spin counter `i` at the end of the iteration; note that the two slow-path
branches leave `i` unchanged (the `continue` statements at lines 292 and 307
skip the `i++`). -/

inductive AcqBranch where
  | acquired
  | acquireCasFailed
  | spin
  | enqueued
  | waitersCasFailed
deriving DecidableEq, Repr

def AcquireExclusiveIter (spinCount i value : Nat) (casOk : Bool) : AcqBranch × Nat :=
  if value &&& LockOwned == 0 then
    if casOk then (.acquired, i) else (.acquireCasFailed, i + 1)
  else if spinCount ≤ i then
    if casOk then (.enqueued, i) else (.waitersCasFailed, i)
  else (.spin, i + 1)

def AcquireSharedIter (spinCount i value : Nat) (casOk : Bool) : AcqBranch × Nat :=
  if sharedAcquireCond value then
    if casOk then (.acquired, i) else (.acquireCasFailed, i + 1)
  else if spinCount ≤ i then
    if casOk then (.enqueued, i) else (.waitersCasFailed, i)
  else (.spin, i + 1)

/-- Runs the AcquireExclusive loop over a finite schedule: each entry gives the
value read from `_value` at that iteration and whether the iteration's
CompareExchange succeeds.  Returns the branch taken at each iteration. -/
def runAcquireExclusive (spinCount : Nat) : Nat → List (Nat × Bool) → List AcqBranch
  | _, [] => []
  | i, (value, casOk) :: rest =>
    let r := AcquireExclusiveIter spinCount i value casOk
    r.1 :: runAcquireExclusive spinCount r.2 rest

/-- Claim C4: a state word with `Owned = 1`, `Waiters = 1` and
`SharedCount ≥ 1` fails the shared fast-path admission test, so
TryAcquireShared returns false and leaves the state word unchanged no matter
what the CAS would have seen, and no iteration of AcquireShared on such a
value can run the acquisition fast path: once the spin budget is exhausted the
iteration enqueues a wait block (or retries after a failed waiters-bit CAS). -/
theorem sharedAcquire_no_overtake (value : Nat)
    (ho : ownedBit value = true) (hw : waitersBit value = true)
    (hs : 1 ≤ sharedOwners value) :
    sharedAcquireCond value = false ∧
    (∀ cur, TryAcquireShared value cur = (false, cur)) ∧
    (∀ spinCount i casOk,
      (AcquireSharedIter spinCount i value casOk).1 ≠ .acquired ∧
      (AcquireSharedIter spinCount i value casOk).1 ≠ .acquireCasFailed) ∧
    (∀ spinCount i casOk, spinCount ≤ i →
      (AcquireSharedIter spinCount i value casOk).1 =
        (if casOk then .enqueued else .waitersCasFailed)) := by
  have hcond : sharedAcquireCond value = false := by
    unfold sharedAcquireCond
    unfold ownedBit at ho
    unfold waitersBit at hw
    simp only [bne_iff_ne, ne_eq, decide_not] at ho hw
    simp [ho, hw]
  refine ⟨hcond, ?_, ?_, ?_⟩
  · intro cur
    unfold TryAcquireShared
    rw [hcond]
    simp
  · intro spinCount i casOk
    unfold AcquireSharedIter
    rw [hcond]
    by_cases h : spinCount ≤ i <;> by_cases hc : casOk <;> simp [h, hc]
  · intro spinCount i casOk h
    unfold AcquireSharedIter
    rw [hcond]
    by_cases hc : casOk <;> simp [h, hc]

/-- Witness for sharedAcquire_no_overtake at the concrete state word 7
(`Owned = 1`, `Waiters = 1`, `SharedCount = 1`). -/
theorem sharedAcquire_no_overtake_witness :
    sharedAcquireCond 7 = false ∧ TryAcquireShared 7 7 = (false, 7) := by
  have h := sharedAcquire_no_overtake 7 (by decide) (by decide) (by decide)
  exact ⟨h.1, h.2.1 7⟩

/-- Claim C9: whenever TryAcquireExclusive or TryAcquireShared returns false
the state word is unchanged by the call; each issues at most one
CompareExchange; and each can return false on a state word that is acquirable
at CAS time (witnessed by snapshot 1 against current value 0: the lock was
released between the read and the CAS). -/
theorem tryAcquire_false_no_change :
    (∀ value cur, (TryAcquireExclusive value cur).1 = false →
      (TryAcquireExclusive value cur).2 = cur) ∧
    (∀ value cur, (TryAcquireShared value cur).1 = false →
      (TryAcquireShared value cur).2 = cur) ∧
    (∀ value, TryAcquireExclusiveCasCount value ≤ 1) ∧
    (∀ value, TryAcquireSharedCasCount value ≤ 1) ∧
    (ownedBit 0 = false ∧ (TryAcquireExclusive 1 0).1 = false) ∧
    (ownedBit 0 = false ∧ (TryAcquireShared 1 0).1 = false) := by
  refine ⟨?_, ?_, ?_, ?_, by decide, by decide⟩
  · intro value cur h
    unfold TryAcquireExclusive at h ⊢
    by_cases h1 : value &&& LockOwned != 0 <;> by_cases h2 : cur = value <;>
      simp [h1, h2] at h ⊢
  · intro value cur h
    unfold TryAcquireShared at h ⊢
    by_cases h1 : sharedAcquireCond value <;>
      by_cases h2 : value &&& LockOwned == 0 <;> by_cases h3 : cur = value <;>
      simp [h1, h2, h3] at h ⊢
  · intro value
    unfold TryAcquireExclusiveCasCount
    by_cases h : value &&& LockOwned != 0 <;> simp [h]
  · intro value
    unfold TryAcquireSharedCasCount
    by_cases h : sharedAcquireCond value <;> simp [h]

/-- Witness for tryAcquire_false_no_change: the failed calls at snapshot 1
against current value 0 leave the word at 0. -/
theorem tryAcquire_false_no_change_witness :
    (TryAcquireExclusive 1 0).2 = 0 ∧ (TryAcquireShared 1 0).2 = 0 :=
  ⟨tryAcquire_false_no_change.1 1 0 (by decide),
   tryAcquire_false_no_change.2.1 1 0 (by decide)⟩

/-! ReleaseShared (part_000, lines 679-705).  The CAS loop re-reads `_value`
and retries until a CompareExchange succeeds; `value` below is the pre-image of
the successful one.  The new value installed and the decision whether `Wake`
is called afterwards are both functions of that pre-image. -/

def ReleaseSharedNewValue (value : Nat) : Nat :=
  if sharedOwners value != 1 then value - LockSharedOwnersIncrement
  else value - LockOwned - LockSharedOwnersIncrement

/-- ReleaseShared calls Wake exactly when `(value & LockWaiters) != 0` held in
the pre-image of the successful CAS (part_000, line 699). -/
def ReleaseSharedWakes (value : Nat) : Bool :=
  value &&& LockWaiters != 0

/-- Claim C5: for a caller that is a shared owner (the state word has the
owned bit set and a positive shared count), ReleaseShared subtracts one shared
increment when the count exceeds one, and subtracts the owned bit together
with one shared increment when the count is one; the three fields of the new
word are the expected ones (count decremented, owned cleared only on the last
release, waiters untouched); and Wake runs iff the pre-image had the waiters
bit set. -/
theorem releaseShared_transition (value : Nat) (h32 : value < 2 ^ 32)
    (ho : ownedBit value = true) (hs : 1 ≤ sharedOwners value) :
    (1 < sharedOwners value →
      ReleaseSharedNewValue value = value - LockSharedOwnersIncrement) ∧
    (sharedOwners value = 1 →
      ReleaseSharedNewValue value = value - LockOwned - LockSharedOwnersIncrement) ∧
    sharedOwners (ReleaseSharedNewValue value) = sharedOwners value - 1 ∧
    ownedBit (ReleaseSharedNewValue value) = (sharedOwners value != 1) ∧
    waitersBit (ReleaseSharedNewValue value) = waitersBit value ∧
    ReleaseSharedWakes value = waitersBit value := by
  have hsv := sharedOwners_eq_div value h32
  have hv4 : 4 ≤ value := by
    rw [hsv] at hs
    omega
  have hodd : value % 2 = 1 := by
    rw [ownedBit_eq_mod] at ho
    simpa using ho
  by_cases hone : sharedOwners value = 1
  · have hd4 : value / 4 = 1 := by rw [hsv] at hone; exact hone
    have h5 : 5 ≤ value := by omega
    have hnv' : ReleaseSharedNewValue value = value - 5 := by
      unfold ReleaseSharedNewValue
      rw [hone]
      simp only [bne_self_eq_false, Bool.false_eq_true, if_false]
      unfold LockOwned LockSharedOwnersIncrement
      omega
    refine ⟨?_, ?_, ?_, ?_, ?_, rfl⟩
    · intro hgt
      omega
    · intro _
      rw [hnv']
      unfold LockOwned LockSharedOwnersIncrement
      omega
    · rw [hnv', sharedOwners_eq_div _ (by omega), hsv]
      omega
    · rw [hnv', ownedBit_eq_mod, hone]
      have hz : (value - 5) % 2 = 0 := by omega
      rw [hz]
      decide
    · rw [hnv', waitersBit_eq_mod, waitersBit_eq_mod]
      have hq : (value - 5) / 2 % 2 = value / 2 % 2 := by omega
      rw [hq]
  · have hne : (sharedOwners value != 1) = true := by simpa using hone
    have hnv' : ReleaseSharedNewValue value = value - 4 := by
      unfold ReleaseSharedNewValue
      rw [hne]
      simp only [if_true]
      unfold LockSharedOwnersIncrement
      rfl
    refine ⟨?_, ?_, ?_, ?_, ?_, rfl⟩
    · intro _
      rw [hnv']
      unfold LockSharedOwnersIncrement
      rfl
    · intro h1
      exact absurd h1 hone
    · rw [hnv', sharedOwners_eq_div _ (by omega), hsv]
      omega
    · rw [hnv', ownedBit_eq_mod, hne]
      have h1 : (value - 4) % 2 = 1 := by omega
      rw [h1]
      decide
    · rw [hnv', waitersBit_eq_mod, waitersBit_eq_mod]
      have hq : (value - 4) / 2 % 2 = value / 2 % 2 := by omega
      rw [hq]

/-- Witness for releaseShared_transition at state word 13
(`Owned = 1`, `Waiters = 0`, `SharedCount = 3`). -/
theorem releaseShared_transition_witness :
    sharedOwners (ReleaseSharedNewValue 13) = 2 ∧ ReleaseSharedWakes 13 = false := by
  have h := releaseShared_transition 13 (by norm_num) (by decide) (by decide)
  refine ⟨?_, ?_⟩
  · rw [h.2.2.1]; decide
  · rw [h.2.2.2.2.2]; decide

/-! Block and Unblock (part_000, lines 432-494 and 804-827).  In the sleeping
path of Block the CAS loop atomically clears the WaiterSpinning flag of the
wait block; `flags` is the pre-image of the successful clear, and the thread
calls NtWaitForKeyedEvent iff `(flags & WaiterSpinning) != 0` (line 470).
Unblock performs the symmetric clear and calls NtReleaseKeyedEvent iff its
pre-image satisfied `(flags & WaiterSpinning) == 0` (line 818).  0xFFFFFFFD is
the 32-bit value of `~WaiterSpinning`. -/

def clearSpinning (flags : Nat) : Nat := flags &&& 0xFFFFFFFD

def BlockParks (flags : Nat) : Bool := flags &&& WaiterSpinning != 0

def UnblockReleases (flags : Nat) : Bool := flags &&& WaiterSpinning == 0

/-- Claim C1, counterexample: a waiting thread whose atomic clear saw the
pre-image 1 (`Exclusive` set, `Spinning` already cleared by the waker) does
not call the parking primitive, contrary to the claim that it still parks to
consume the waker's release. -/
theorem block_no_park_on_cleared_preimage :
    1 &&& WaiterSpinning = 0 ∧ BlockParks 1 = false := by decide

/-! The race between one Block call and one Unblock call on the same wait
block.  Each thread performs exactly one successful atomic clear of the
Spinning flag; `ClearOrder` says which clear lands first, and the pre-image
each thread observes is the initial flags word with the other thread's clear
applied if that clear landed earlier. -/

inductive ClearOrder where
  | blockFirst
  | unblockFirst
deriving DecidableEq, Repr

def blockPreimage : ClearOrder → Nat → Nat
  | .blockFirst, init => init
  | .unblockFirst, init => clearSpinning init

def unblockPreimage : ClearOrder → Nat → Nat
  | .blockFirst, init => clearSpinning init
  | .unblockFirst, init => init

/-- Number of NtWaitForKeyedEvent calls Block issues in the given interleaving. -/
def parkCalls (o : ClearOrder) (init : Nat) : Nat :=
  if BlockParks (blockPreimage o init) then 1 else 0

/-- Number of NtReleaseKeyedEvent calls Unblock issues in the given interleaving. -/
def releaseCalls (o : ClearOrder) (init : Nat) : Nat :=
  if UnblockReleases (unblockPreimage o init) then 1 else 0

theorem clearSpinning_clears (init : Nat) : clearSpinning init &&& WaiterSpinning = 0 := by
  unfold clearSpinning WaiterSpinning
  rw [Nat.land_assoc]
  have h2 : (0xFFFFFFFD : Nat) &&& 2 = 0 := by decide
  rw [h2, Nat.and_zero]

/-- Claim C1, amended: in the sleeping path of Block the thread calls the
parking primitive iff the pre-image of its atomic clear still had
`Spinning = 1`, i.e. iff its clear landed before the waker's.  When the
pre-image had `Spinning = 0` the thread does not park, and no release is
lost: the waker, whose clear landed first, observed `Spinning = 1` in its own
pre-image and therefore skipped NtReleaseKeyedEvent, so there is no committed
release to consume. -/
theorem block_parks_iff_cleared_first (init : Nat)
    (h : init &&& WaiterSpinning ≠ 0) :
    BlockParks (blockPreimage .unblockFirst init) = false ∧
    UnblockReleases (unblockPreimage .unblockFirst init) = false ∧
    BlockParks (blockPreimage .blockFirst init) = true ∧
    UnblockReleases (unblockPreimage .blockFirst init) = true := by
  refine ⟨?_, ?_, ?_, ?_⟩
  · show (clearSpinning init &&& WaiterSpinning != 0) = false
    rw [clearSpinning_clears]
    simp
  · show (init &&& WaiterSpinning == 0) = false
    simpa using h
  · show (init &&& WaiterSpinning != 0) = true
    simpa using h
  · show (clearSpinning init &&& WaiterSpinning == 0) = true
    rw [clearSpinning_clears]
    rfl

/-- Witness for block_parks_iff_cleared_first at initial flags 3
(`Exclusive` and `Spinning` both set). -/
theorem block_parks_iff_cleared_first_witness :
    BlockParks (blockPreimage .unblockFirst 3) = false ∧
    UnblockReleases (unblockPreimage .blockFirst 3) = true :=
  ⟨(block_parks_iff_cleared_first 3 (by decide)).1,
   (block_parks_iff_cleared_first 3 (by decide)).2.2.2⟩

/-- Claim C7, counterexample: when Block's clear lands before Unblock's clear
(initial flags 3, both flags set), both threads perform their OS call - Block
parks and Unblock releases - so it is false that exactly one of the two
threads performs its OS call. -/
theorem block_unblock_both_call :
    parkCalls .blockFirst 3 = 1 ∧ releaseCalls .blockFirst 3 = 1 := by decide

/-- Claim C7, amended: over either interleaving of the two atomic clears,
Block parks at most once, Unblock releases at most once, and the park and the
release happen together or not at all: both occur exactly when Block's clear
landed first, and neither occurs when Unblock's clear landed first.  In
particular no release is left unconsumed and no park is left unreleased. -/
theorem block_unblock_pairing (init : Nat) (h : init &&& WaiterSpinning ≠ 0) :
    ∀ o : ClearOrder,
      parkCalls o init ≤ 1 ∧ releaseCalls o init ≤ 1 ∧
      parkCalls o init = releaseCalls o init ∧
      (parkCalls o init = 1 ↔ o = .blockFirst) := by
  intro o
  have hbt : BlockParks (blockPreimage .blockFirst init) = true := by
    show (init &&& WaiterSpinning != 0) = true
    simpa using h
  have hbf : BlockParks (blockPreimage .unblockFirst init) = false := by
    show (clearSpinning init &&& WaiterSpinning != 0) = false
    rw [clearSpinning_clears]
    rfl
  have hut : UnblockReleases (unblockPreimage .blockFirst init) = true := by
    show (clearSpinning init &&& WaiterSpinning == 0) = true
    rw [clearSpinning_clears]
    rfl
  have huf : UnblockReleases (unblockPreimage .unblockFirst init) = false := by
    show (init &&& WaiterSpinning == 0) = false
    simpa using h
  cases o
  · refine ⟨?_, ?_, ?_, ?_⟩ <;> simp [parkCalls, releaseCalls, hbt, hut]
  · refine ⟨?_, ?_, ?_, ?_⟩ <;> simp [parkCalls, releaseCalls, hbf, huf]

/-- Witness for block_unblock_pairing at initial flags 2 (shared waiter,
`Spinning` set), Unblock first: neither OS call happens. -/
theorem block_unblock_pairing_witness :
    parkCalls .unblockFirst 2 = releaseCalls .unblockFirst 2 :=
  (block_unblock_pairing 2 (by decide) .unblockFirst).2.2.1

/-- Claim C8, counterexample (spin count 1): the schedule reads the lock as
owned three times; the first iteration spins (i: 0 to 1), the second enters
the slow path and its waiters-bit CAS fails, forcing the restart, and the
restarted iteration, finding the lock still owned, immediately re-enqueues a
wait block without a single further spin - the spin counter `i` survives the
restart, so the restarted attempt has no spin budget left. -/
theorem acquireExclusive_retry_skips_spin :
    runAcquireExclusive 1 0 [(1, false), (1, false), (1, true)] =
      [.spin, .waitersCasFailed, .enqueued] ∧
    (AcquireExclusiveIter 1 1 1 false).2 = 1 := by decide

/-- Claim C8, amended: when the waiters-bit CAS fails the operation releases
the queue spinlock and restarts the whole acquire, but the spin counter is not
reset: every slow-path iteration (spin budget exhausted, `spinCount ≤ i`)
leaves `i` unchanged, so a restarted attempt that still finds the lock owned
(and, for AcquireShared, not joinable) re-enters the slow path at once and
never spins again.  This holds for AcquireExclusive and AcquireShared alike. -/
theorem acquire_retry_budget_not_reset (spinCount i value : Nat) (casOk : Bool)
    (h : spinCount ≤ i) (ho : value &&& LockOwned ≠ 0)
    (hg : sharedAcquireCond value = false) :
    (AcquireExclusiveIter spinCount i value casOk).2 = i ∧
    (AcquireExclusiveIter spinCount i value casOk).1 =
      (if casOk then .enqueued else .waitersCasFailed) ∧
    (AcquireSharedIter spinCount i value casOk).2 = i ∧
    (AcquireSharedIter spinCount i value casOk).1 =
      (if casOk then .enqueued else .waitersCasFailed) := by
  have ho' : (value &&& LockOwned == 0) = false := by simpa using ho
  unfold AcquireExclusiveIter AcquireSharedIter
  rw [ho', hg]
  by_cases hc : casOk <;> simp [h, hc]

/-- Witness for acquire_retry_budget_not_reset at spin count 1, i = 1,
state word 3 (`Owned = 1`, `Waiters = 1`), successful CAS. -/
theorem acquire_retry_budget_not_reset_witness :
    (AcquireExclusiveIter 1 1 3 true).2 = 1 ∧
    (AcquireSharedIter 1 1 3 true).1 = .enqueued := by
  have h := acquire_retry_budget_not_reset 1 1 3 true (by decide) (by decide) (by decide)
  exact ⟨h.1, by rw [h.2.2.2]; decide⟩

/-! The waiter queue.  A queued wait block is modelled by its exclusive flag
together with a sequence number recording the order of enqueue operations
(block `n` was enqueued by the `n`-th enqueue).  The sentinel-headed circular
list is modelled as a plain list (the sentinel itself is not an element); the
`_firstSharedWaiter` cursor becomes the index of the block it points to, with
the list's length standing for the sentinel. -/

structure QBlock where
  exclusive : Bool
  viaConvert : Bool
  seq : Nat
deriving DecidableEq, Repr

/-- The dequeue loop of the generic Wake (part_000, lines 846-887).  Walking
the queue from the head: an exclusive block seen first is dequeued alone; an
exclusive block seen after at least one shared dequeue stops the walk; shared
blocks are dequeued into the wake list; reaching the sentinel clears the
Waiters bit.  Returns (wake list, exclusive block dequeued alone if any,
whether the Waiters bit was cleared, remaining queue). -/
def wakeScan : Bool → List QBlock → List QBlock × Option QBlock × Bool × List QBlock
  | _, [] => ([], none, true, [])
  | first, wb :: rest =>
    if first && wb.exclusive then ([], some wb, false, rest)
    else if !first && wb.exclusive then ([], none, false, wb :: rest)
    else
      let r := wakeScan false rest
      (wb :: r.1, r.2.1, r.2.2.1, r.2.2.2)

def wakeList (q : List QBlock) : List QBlock := (wakeScan true q).1

def wakeExclusiveDequeued (q : List QBlock) : Option QBlock := (wakeScan true q).2.1

def wakeClearsWaiters (q : List QBlock) : Bool := (wakeScan true q).2.2.1

def wakeRemaining (q : List QBlock) : List QBlock := (wakeScan true q).2.2.2

theorem wakeScan_cleared_eq (q : List QBlock) : ∀ first : Bool,
    (wakeScan first q).2.2.1 =
      ((wakeScan first q).2.2.2.isEmpty && (wakeScan first q).2.1.isNone) := by
  induction q with
  | nil => intro first; rfl
  | cons wb rest ih =>
    intro first
    unfold wakeScan
    by_cases he : wb.exclusive
    · cases first <;> simp [he]
    · cases first <;> simp [he] <;> exact ih false

/-- Claim C2, counterexample: a queue holding a single shared wait block.
Wake dequeues it (the wake list is that one block) and, on the next loop
iteration, observes the queue empty and clears the Waiters bit - so an
execution of Wake that dequeued a wait block can still clear Waiters,
contrary to the claim. -/
theorem wake_dequeues_and_clears :
    wakeList [⟨false, false, 0⟩] = [⟨false, false, 0⟩] ∧ wakeClearsWaiters [⟨false, false, 0⟩] = true := by
  decide

/-- Claim C2, amended: the generic Wake clears the Waiters bit exactly when
its loop observed the queue empty at the start of one of its iterations -
either the queue was empty on entry, or the dequeued shared blocks were the
entire queue.  Equivalently, Waiters is cleared iff nothing remains queued and
no exclusive block was dequeued; when Wake dequeues an exclusive head, or
stops at an exclusive block behind dequeued shared ones, Waiters stays set. -/
theorem wake_clears_iff_drained (q : List QBlock) :
    wakeClearsWaiters q =
      ((wakeRemaining q).isEmpty && (wakeExclusiveDequeued q).isNone) :=
  wakeScan_cleared_eq q true

/-- The dequeue loop of WakeShared (part_000, lines 986-1017), walking forward
from the `_firstSharedWaiter` cursor: every block from the cursor to the
sentinel is removed into the wake list, and reaching the sentinel - which the
traversal always does - runs the CAS loop that clears the Waiters bit.
Returns (wake list, whether Waiters was cleared). -/
def wakeSharedScan : List QBlock → List QBlock × Bool
  | [] => ([], true)
  | wb :: rest =>
    let r := wakeSharedScan rest
    (wb :: r.1, r.2)

/-- WakeShared on a queue whose `_firstSharedWaiter` cursor sits at index
`fs` (the list length denoting the sentinel): the suffix from the cursor is
dequeued, the prefix before it is untouched, and `_firstSharedWaiter` is reset
to the sentinel.  Returns (wake list, Waiters cleared, remaining queue). -/
def WakeSharedRun (q : List QBlock) (fs : Nat) : List QBlock × Bool × List QBlock :=
  let r := wakeSharedScan (q.drop fs)
  (r.1, r.2, q.take fs)

theorem wakeSharedScan_clears (l : List QBlock) : (wakeSharedScan l).2 = true := by
  induction l with
  | nil => rfl
  | cons wb rest ih =>
    unfold wakeSharedScan
    exact ih

/-- Claim C3: WakeShared always clears the Waiters bit, whatever remains
queued - the loop's emptiness test compares its running cursor, not the queue
head, against the sentinel, so it conflates end of traversal with an empty
queue. -/
theorem wakeShared_always_clears (q : List QBlock) (fs : Nat) :
    (WakeSharedRun q fs).2.1 = true :=
  wakeSharedScan_clears (q.drop fs)

/-- Claim C3, the failing input: one exclusive wait block queued and no shared
waiter (`_firstSharedWaiter` = sentinel).  WakeShared dequeues nothing, leaves
the exclusive block queued, and still clears the Waiters bit, contradicting
its own "No more waiters" comment: the waiter-present invariant is broken and
the exclusive waiter's wakeup can be lost. -/
theorem wakeShared_clears_with_exclusive_queued :
    (WakeSharedRun [⟨true, false, 0⟩] 1).1 = [] ∧
    (WakeSharedRun [⟨true, false, 0⟩] 1).2.1 = true ∧
    (WakeSharedRun [⟨true, false, 0⟩] 1).2.2 = [⟨true, false, 0⟩] := by
  decide

/-! The queue state machine for the ordering claim.  A state holds the queue,
the index of the `_firstSharedWaiter` cursor (the list's length denotes the
sentinel) and the next enqueue sequence number.  Each block also carries a
ghost flag `viaConvert` telling whether it was enqueued by
ConvertSharedToExclusive (ListPosition.First) rather than by a plain acquire.
The insertion operations are the three `InsertWaitBlock` positions as invoked
by their callers (part_000, lines 635-649), the removal operations are the
dequeues of Wake, WakeShared and WakeExclusive. -/

structure LockQueue where
  queue : List QBlock
  firstShared : Nat
  nextSeq : Nat
deriving DecidableEq, Repr

/-- AcquireExclusive's insertion (ListPosition.LastExclusive, part_000, lines
297 and 642-644): `InsertTailList (_firstSharedWaiter, waitBlock)` places the
block immediately before the first shared waiter.  The cursor keeps pointing
at the same block, whose index grows by one. -/
def insertLastExclusive (s : LockQueue) : LockQueue :=
  ⟨s.queue.take s.firstShared ++ ⟨true, false, s.nextSeq⟩ :: s.queue.drop s.firstShared,
   s.firstShared + 1, s.nextSeq + 1⟩

/-- The cursor update of AcquireShared (part_000, lines 400-407): after the
tail insertion, `_firstSharedWaiter` is retargeted at the new block iff the
new block's predecessor is the sentinel or an exclusive block. -/
def sharedEnqueueCursor (q : List QBlock) (fs : Nat) : Nat :=
  match q.getLast? with
  | none => q.length
  | some b => if b.exclusive then q.length else fs

/-- AcquireShared's insertion (ListPosition.Last, part_000, lines 398 and
645-647): `InsertTailList (_waitersListHead, waitBlock)` appends at the tail,
followed by the cursor update. -/
def insertLastShared (s : LockQueue) : LockQueue :=
  ⟨s.queue ++ [⟨false, false, s.nextSeq⟩],
   sharedEnqueueCursor s.queue s.firstShared, s.nextSeq + 1⟩

/-- ConvertSharedToExclusive's insertion (ListPosition.First, part_000, lines
594 and 639-641): `InsertHeadList (_waitersListHead, waitBlock)` places the
block ahead of every other waiter.  The cursor's index grows by one. -/
def insertFirstExclusive (s : LockQueue) : LockQueue :=
  ⟨⟨true, true, s.nextSeq⟩ :: s.queue, s.firstShared + 1, s.nextSeq + 1⟩

/-- The queue effect of the generic Wake (part_000, lines 846-894): the scan
dequeues blocks as in `wakeScan`; afterwards `_firstSharedWaiter` is reset to
the sentinel iff the block the loop stopped at is not exclusive (when the
queue was drained the loop stopped at the sentinel, whose flags word is taken
as zero).  When an exclusive head was dequeued the cursor is untouched and its
index drops by one. -/
def wakeStep (s : LockQueue) : LockQueue :=
  let r := wakeScan true s.queue
  match r.2.1 with
  | some _ => ⟨r.2.2.2, s.firstShared - 1, s.nextSeq⟩
  | none =>
    if r.2.2.1 then ⟨r.2.2.2, r.2.2.2.length, s.nextSeq⟩
    else ⟨r.2.2.2, s.firstShared, s.nextSeq⟩

/-- The queue effect of WakeShared (part_000, lines 974-1022): every block
from the cursor to the sentinel is dequeued and the cursor is reset to the
sentinel. -/
def wakeSharedStep (s : LockQueue) : LockQueue :=
  ⟨s.queue.take s.firstShared, (s.queue.take s.firstShared).length, s.nextSeq⟩

/-- The queue effect of WakeExclusive (part_000, lines 927-969): the head is
dequeued iff it exists and is exclusive; the cursor is untouched (its index
drops by one when a block before it is removed). -/
def wakeExclusiveStep (s : LockQueue) : LockQueue :=
  match s.queue with
  | [] => s
  | wb :: rest => if wb.exclusive then ⟨rest, s.firstShared - 1, s.nextSeq⟩ else s

inductive LockQueueStep : LockQueue → LockQueue → Prop
  | enqueueExclusive (s : LockQueue) : LockQueueStep s (insertLastExclusive s)
  | enqueueShared (s : LockQueue) : LockQueueStep s (insertLastShared s)
  | enqueueConvert (s : LockQueue) : LockQueueStep s (insertFirstExclusive s)
  | wake (s : LockQueue) : LockQueueStep s (wakeStep s)
  | wakeShared (s : LockQueue) : LockQueueStep s (wakeSharedStep s)
  | wakeExclusive (s : LockQueue) : LockQueueStep s (wakeExclusiveStep s)

def initialLockQueue : LockQueue := ⟨[], 0, 0⟩

def QueueReachable (s : LockQueue) : Prop :=
  Relation.ReflTransGen LockQueueStep initialLockQueue s

/-- The ordering invariant that actually holds: the queue splits into an
exclusive run followed by a shared run, the cursor indexes the first shared
block (or the sentinel), the shared blocks carry increasing sequence numbers,
the exclusive blocks enqueued by plain acquires (not by conversion) carry
increasing sequence numbers, and every sequence number is below the next one
to be issued. -/
def QueueInv (s : LockQueue) : Prop :=
  ∃ E S, s.queue = E ++ S ∧
    (∀ b ∈ E, b.exclusive = true) ∧
    (∀ b ∈ S, b.exclusive = false) ∧
    s.firstShared = E.length ∧
    List.Pairwise (fun a b => a.seq < b.seq) S ∧
    List.Pairwise (fun a b => a.seq < b.seq) (E.filter fun b => !b.viaConvert) ∧
    (∀ b ∈ s.queue, b.seq < s.nextSeq)

/-- The within-class FIFO property asserted by the claim: two queued blocks of
the same class appear in the order of their enqueue sequence numbers. -/
def WithinClassFifo (q : List QBlock) : Prop :=
  ∀ i j : Fin q.length, (i : Nat) < (j : Nat) →
    (q.get i).exclusive = (q.get j).exclusive → (q.get i).seq < (q.get j).seq

theorem wakeScan_all_shared (l : List QBlock) (h : ∀ b ∈ l, b.exclusive = false) :
    ∀ first : Bool, wakeScan first l = (l, none, true, []) := by
  induction l with
  | nil => intro first; rfl
  | cons wb rest ih =>
    intro first
    have hw : wb.exclusive = false := h wb (List.mem_cons_self _ _)
    have hr := ih (fun b hb => h b (List.mem_cons_of_mem _ hb)) false
    unfold wakeScan
    rw [hw]
    simp [hr]

theorem wakeStep_all_shared (s : LockQueue) (h : ∀ b ∈ s.queue, b.exclusive = false) :
    wakeStep s = ⟨[], 0, s.nextSeq⟩ := by
  unfold wakeStep
  rw [wakeScan_all_shared s.queue h true]
  rfl

theorem wakeStep_exclusive_head (s : LockQueue) (e : QBlock) (rest : List QBlock)
    (hq : s.queue = e :: rest) (he : e.exclusive = true) :
    wakeStep s = ⟨rest, s.firstShared - 1, s.nextSeq⟩ := by
  unfold wakeStep
  rw [hq]
  unfold wakeScan
  rw [he]
  simp

theorem queueInv_step {s t : LockQueue} (hinv : QueueInv s) (hstep : LockQueueStep s t) :
    QueueInv t := by
  obtain ⟨E, S, hq, hE, hS, hfs, hsortS, hsortE, hbound⟩ := hinv
  have htake : s.queue.take s.firstShared = E := by
    rw [hq, hfs]; exact List.take_left E S
  have hdrop : s.queue.drop s.firstShared = S := by
    rw [hq, hfs]; exact List.drop_left E S
  have hboundE : ∀ b ∈ E, b.seq < s.nextSeq := by
    intro b hb; exact hbound b (by rw [hq]; exact List.mem_append_left _ hb)
  have hboundS : ∀ b ∈ S, b.seq < s.nextSeq := by
    intro b hb; exact hbound b (by rw [hq]; exact List.mem_append_right _ hb)
  cases hstep with
  | enqueueExclusive =>
    refine ⟨E ++ [⟨true, false, s.nextSeq⟩], S, ?_, ?_, hS, ?_, hsortS, ?_, ?_⟩
    · show s.queue.take s.firstShared ++ ⟨true, false, s.nextSeq⟩ :: s.queue.drop s.firstShared =
        (E ++ [⟨true, false, s.nextSeq⟩]) ++ S
      rw [htake, hdrop, List.append_assoc]
      rfl
    · intro b hb
      rcases List.mem_append.mp hb with h | h
      · exact hE b h
      · rw [List.mem_singleton.mp h]
    · show s.firstShared + 1 = _
      rw [hfs, List.length_append]
      rfl
    · rw [List.filter_append]
      rw [List.pairwise_append]
      refine ⟨hsortE, ?_, ?_⟩
      · simp
      · intro a ha c hc
        simp only [List.filter_cons, List.filter_nil] at hc
        have hc' : c = ⟨true, false, s.nextSeq⟩ := by
          simpa using hc
        rw [hc']
        exact hboundE a (List.mem_of_mem_filter ha)
    · intro b hb
      show b.seq < s.nextSeq + 1
      rcases List.mem_append.mp hb with h | h
      · have := hboundE b (by rw [← htake]; exact h)
        omega
      · rcases List.mem_cons.mp h with h1 | h1
        · rw [h1]
          exact Nat.lt_succ_self _
        · have := hboundS b (by rw [← hdrop]; exact h1)
          omega
  | enqueueShared =>
    refine ⟨E, S ++ [⟨false, false, s.nextSeq⟩], ?_, hE, ?_, ?_, ?_, hsortE, ?_⟩
    · show s.queue ++ [⟨false, false, s.nextSeq⟩] = E ++ (S ++ [⟨false, false, s.nextSeq⟩])
      rw [hq, List.append_assoc]
    · intro b hb
      rcases List.mem_append.mp hb with h | h
      · exact hS b h
      · rw [List.mem_singleton.mp h]
    · show sharedEnqueueCursor s.queue s.firstShared = E.length
      rcases S.eq_nil_or_concat with hSnil | ⟨S0, b, hScat⟩
      · rcases E.eq_nil_or_concat with hEnil | ⟨E0, e, hEcat⟩
        · have hq0 : s.queue = [] := by rw [hq, hSnil, hEnil]; rfl
          unfold sharedEnqueueCursor
          rw [hq0, hEnil]
          rfl
        · rw [List.concat_eq_append] at hEcat
          have hq0 : s.queue = E0 ++ [e] := by rw [hq, hSnil, hEcat, List.append_nil]
          have he : e.exclusive = true := by
            apply hE
            rw [hEcat]
            exact List.mem_append_right _ (List.mem_singleton.mpr rfl)
          unfold sharedEnqueueCursor
          rw [hq0, List.getLast?_concat]
          show (if e.exclusive = true then (E0 ++ [e]).length else s.firstShared) = E.length
          rw [he, hEcat]
          simp
      · rw [List.concat_eq_append] at hScat
        have hq0 : s.queue = (E ++ S0) ++ [b] := by rw [hq, hScat, List.append_assoc]
        have hb : b.exclusive = false := by
          apply hS
          rw [hScat]
          exact List.mem_append_right _ (List.mem_singleton.mpr rfl)
        unfold sharedEnqueueCursor
        rw [hq0, List.getLast?_concat]
        show (if b.exclusive = true then ((E ++ S0) ++ [b]).length else s.firstShared) = E.length
        rw [hb]
        simp only [Bool.false_eq_true, if_false]
        exact hfs
    · rw [List.pairwise_append]
      refine ⟨hsortS, ?_, ?_⟩
      · simp
      · intro a ha c hc
        have hc' : c = ⟨false, false, s.nextSeq⟩ := List.mem_singleton.mp hc
        rw [hc']
        exact hboundS a ha
    · intro b hb
      show b.seq < s.nextSeq + 1
      rcases List.mem_append.mp hb with h | h
      · have := hbound b h
        omega
      · rw [List.mem_singleton.mp h]
        exact Nat.lt_succ_self _
  | enqueueConvert =>
    refine ⟨⟨true, true, s.nextSeq⟩ :: E, S, ?_, ?_, hS, ?_, hsortS, ?_, ?_⟩
    · show ⟨true, true, s.nextSeq⟩ :: s.queue = (⟨true, true, s.nextSeq⟩ :: E) ++ S
      rw [hq]
      rfl
    · intro b hb
      rcases List.mem_cons.mp hb with h | h
      · rw [h]
      · exact hE b h
    · show s.firstShared + 1 = _
      rw [hfs]
      rfl
    · simp only [List.filter_cons]
      norm_num
      exact hsortE
    · intro b hb
      show b.seq < s.nextSeq + 1
      rcases List.mem_cons.mp hb with h | h
      · rw [h]
        exact Nat.lt_succ_self _
      · have := hbound b h
        omega
  | wake =>
    rcases E with _ | ⟨e, E'⟩
    · have hsh : ∀ b ∈ s.queue, b.exclusive = false := by
        intro b hb
        apply hS
        rw [hq] at hb
        simpa using hb
      rw [wakeStep_all_shared s hsh]
      exact ⟨[], [], rfl, by simp, by simp, rfl, List.Pairwise.nil, List.Pairwise.nil, by simp⟩
    · have he : e.exclusive = true := hE e (List.mem_cons_self _ _)
      have hq' : s.queue = e :: (E' ++ S) := by rw [hq]; rfl
      rw [wakeStep_exclusive_head s e (E' ++ S) hq' he]
      refine ⟨E', S, rfl, ?_, hS, ?_, hsortS, ?_, ?_⟩
      · intro b hb
        exact hE b (List.mem_cons_of_mem _ hb)
      · rw [hfs]
        rfl
      · exact hsortE.sublist ((List.sublist_cons_self e E').filter _)
      · intro b hb
        apply hbound
        rw [hq']
        exact List.mem_cons_of_mem _ hb
  | wakeShared =>
    have hw : wakeSharedStep s = ⟨E, E.length, s.nextSeq⟩ := by
      unfold wakeSharedStep
      rw [htake]
    rw [hw]
    refine ⟨E, [], by simp, hE, by simp, rfl, List.Pairwise.nil, hsortE, ?_⟩
    intro b hb
    exact hboundE b (by simpa using hb)
  | wakeExclusive =>
    rcases E with _ | ⟨e, E'⟩
    · rcases S with _ | ⟨s0, S'⟩
      · have hq0 : s.queue = [] := by rw [hq]; rfl
        have hw : wakeExclusiveStep s = s := by
          unfold wakeExclusiveStep
          rw [hq0]
        rw [hw]
        exact ⟨[], [], hq, hE, hS, hfs, hsortS, hsortE, hbound⟩

      · have hq0 : s.queue = s0 :: S' := by rw [hq]; rfl
        have hs0 : s0.exclusive = false := hS s0 (List.mem_cons_self _ _)
        have hw : wakeExclusiveStep s = s := by
          unfold wakeExclusiveStep
          rw [hq0]
          show (if s0.exclusive = true then LockQueue.mk S' (s.firstShared - 1) s.nextSeq else s) = s
          rw [hs0]
          simp
        rw [hw]
        exact ⟨[], s0 :: S', hq, hE, hS, hfs, hsortS, hsortE, hbound⟩
    · have he : e.exclusive = true := hE e (List.mem_cons_self _ _)
      have hq' : s.queue = e :: (E' ++ S) := by rw [hq]; rfl
      have hw : wakeExclusiveStep s = ⟨E' ++ S, s.firstShared - 1, s.nextSeq⟩ := by
        unfold wakeExclusiveStep
        rw [hq']
        show (if e.exclusive = true then LockQueue.mk (E' ++ S) (s.firstShared - 1) s.nextSeq else s) = _
        rw [he]
        simp
      rw [hw]
      refine ⟨E', S, rfl, ?_, hS, ?_, hsortS, ?_, ?_⟩
      · intro b hb
        exact hE b (List.mem_cons_of_mem _ hb)
      · rw [hfs]
        rfl
      · exact hsortE.sublist ((List.sublist_cons_self e E').filter _)
      · intro b hb
        apply hbound
        rw [hq']
        exact List.mem_cons_of_mem _ hb

/-- Claim C6, counterexample: enqueue one exclusive waiter by a plain
exclusive acquire (sequence number 0), then enqueue the wait block of a
shared-to-exclusive conversion (ListPosition.First, sequence number 1).  The
reachable queue holds the two exclusive blocks in the order [seq 1, seq 0]:
the block enqueued second precedes the block enqueued first, so within-class
enqueue order is not preserved by First insertions. -/
theorem queue_fifo_counterexample :
    QueueReachable ⟨[⟨true, true, 1⟩, ⟨true, false, 0⟩], 2, 2⟩ ∧
    ¬ WithinClassFifo [⟨true, true, 1⟩, ⟨true, false, 0⟩] := by
  constructor
  · have h1 : LockQueueStep initialLockQueue ⟨[⟨true, false, 0⟩], 1, 1⟩ :=
      LockQueueStep.enqueueExclusive initialLockQueue
    have h2 : LockQueueStep ⟨[⟨true, false, 0⟩], 1, 1⟩
        ⟨[⟨true, true, 1⟩, ⟨true, false, 0⟩], 2, 2⟩ :=
      LockQueueStep.enqueueConvert ⟨[⟨true, false, 0⟩], 1, 1⟩
    exact Relation.ReflTransGen.tail (Relation.ReflTransGen.single h1) h2
  · intro hf
    have := hf ⟨0, by norm_num⟩ ⟨1, by norm_num⟩ (by norm_num) rfl
    exact absurd this (by decide)

/-- Claim C6, amended: in every reachable waiter-queue state every exclusive
wait block precedes every shared wait block, the `_firstSharedWaiter` cursor
indexes the first shared block (or the sentinel), shared wait blocks appear in
the order they were enqueued, and so do the exclusive wait blocks enqueued at
LastExclusive by plain exclusive acquires; but a conversion's First insertion
places its later-enqueued block ahead of earlier exclusive blocks, so the
enqueue order of the exclusive class as a whole is not preserved. -/
theorem queue_order_invariant (s : LockQueue) (h : QueueReachable s) : QueueInv s := by
  induction h with
  | refl =>
    refine ⟨[], [], rfl, ?_, ?_, rfl, List.Pairwise.nil, List.Pairwise.nil, ?_⟩ <;>
      intro b hb <;> exact absurd hb (List.not_mem_nil b)
  | tail _ hbc ih => exact queueInv_step ih hbc

/-- Witness for queue_order_invariant at the initial state. -/
theorem queue_order_invariant_witness : QueueInv initialLockQueue :=
  queue_order_invariant initialLockQueue Relation.ReflTransGen.refl

end FairResourceLock

namespace KProcessHacker

/-! MmCopyVirtualMemory (mm.c, lines 521-573).  The two copy engines and the
rundown-protection acquisition are environments of the dispatcher: the model
takes the pool-copy threshold as a parameter (its value lives in a header not
present in the sources), a flag telling whether KphAcquireProcessRundownProtection
succeeds, and for each engine the status it would return and whether it would
write `*ReturnLength`. -/

inductive CopyEngine where
  | mappedCopy
  | poolCopy
deriving DecidableEq, Repr

def STATUS_SUCCESS : Nat := 0

def STATUS_PROCESS_IS_TERMINATING : Nat := 0xC000010A

/-- The observable outcome of one MmCopyVirtualMemory call: returned status,
whether rundown protection was acquired (and later released), which copy
engine ran (if any), and whether `*ReturnLength` was written. -/
structure CopyCall where
  status : Nat
  rundownAcquired : Bool
  engine : Option CopyEngine
  wroteReturnLength : Bool
deriving DecidableEq, Repr

def MmCopyVirtualMemory (poolCopyThreshold bufferLength : Nat) (rundownOk : Bool)
    (engineStatus : CopyEngine → Nat) (engineWrites : CopyEngine → Bool) : CopyCall :=
  if bufferLength = 0 then
    ⟨STATUS_SUCCESS, false, none, false⟩
  else if !rundownOk then
    ⟨STATUS_PROCESS_IS_TERMINATING, false, none, false⟩
  else if poolCopyThreshold < bufferLength then
    ⟨engineStatus .mappedCopy, true, some .mappedCopy, engineWrites .mappedCopy⟩
  else
    ⟨engineStatus .poolCopy, true, some .poolCopy, engineWrites .poolCopy⟩

/-- Claim C10, counterexample: a call with BufferLength = 1 on a terminating
target process (rundown protection refused) dispatches to neither engine even
though 1 is not above a threshold of 1, contradicting the claim that every
call with BufferLength > 0 dispatches to MiDoPoolCopy when the length does not
exceed the threshold. -/
theorem mmCopy_no_dispatch_when_terminating :
    0 < 1 ∧
    (MmCopyVirtualMemory 1 1 false (fun _ => 0) (fun _ => false)).engine = none ∧
    (MmCopyVirtualMemory 1 1 false (fun _ => 0) (fun _ => false)).status =
      STATUS_PROCESS_IS_TERMINATING := by
  refine ⟨Nat.one_pos, rfl, rfl⟩

/-- Claim C10, amended: a call with BufferLength = 0 returns STATUS_SUCCESS
immediately, without touching rundown protection, running a copy engine or
writing `*ReturnLength`; a call with BufferLength > 0 whose rundown
acquisition succeeds dispatches to MiDoMappedCopy exactly when the length
exceeds MM_POOL_COPY_THRESHOLD and to MiDoPoolCopy otherwise; and a call with
BufferLength > 0 whose rundown acquisition fails returns
STATUS_PROCESS_IS_TERMINATING with no dispatch and no `*ReturnLength` write. -/
theorem mmCopy_dispatch (threshold len : Nat) (rundownOk : Bool)
    (engineStatus : CopyEngine → Nat) (engineWrites : CopyEngine → Bool) :
    (len = 0 →
      MmCopyVirtualMemory threshold len rundownOk engineStatus engineWrites =
        ⟨STATUS_SUCCESS, false, none, false⟩) ∧
    (0 < len → rundownOk = true →
      (MmCopyVirtualMemory threshold len rundownOk engineStatus engineWrites).engine =
        some (if threshold < len then .mappedCopy else .poolCopy) ∧
      (MmCopyVirtualMemory threshold len rundownOk engineStatus engineWrites).rundownAcquired =
        true) ∧
    (0 < len → rundownOk = false →
      MmCopyVirtualMemory threshold len rundownOk engineStatus engineWrites =
        ⟨STATUS_PROCESS_IS_TERMINATING, false, none, false⟩) := by
  refine ⟨?_, ?_, ?_⟩
  · intro h0
    unfold MmCopyVirtualMemory
    rw [h0]
    simp
  · intro hpos hr
    unfold MmCopyVirtualMemory
    rw [hr]
    have h0 : ¬ len = 0 := by omega
    by_cases ht : threshold < len <;> simp [h0, ht]
  · intro hpos hr
    unfold MmCopyVirtualMemory
    rw [hr]
    have h0 : ¬ len = 0 := by omega
    simp [h0]

/-- Witness for mmCopy_dispatch: threshold 4, length 9, rundown acquired -
the mapped engine runs. -/
theorem mmCopy_dispatch_witness :
    (MmCopyVirtualMemory 4 9 true (fun _ => 0) (fun _ => true)).engine =
      some .mappedCopy := by
  have h := (mmCopy_dispatch 4 9 true (fun _ => 0) (fun _ => true)).2.1
    (by norm_num) rfl
  rw [h.1]
  rfl

end KProcessHacker
